import Mathlib

/-!
Verification of the statistics aggregator of the `github-stats` repository
(`src/lib/github.ts`), as a shallow embedding in Lean 4.

Conventions used throughout:
* JavaScript timestamps are modelled as `Int` (milliseconds since the Unix
  epoch); JavaScript day numbers are `Int` (days since the epoch).
* `Date` field accessors (`getUTCFullYear`, `getUTCMonth`, `getUTCDate`) and
  `Date.UTC` are modelled by the ECMAScript specification algorithms
  (`Day`, `DayFromYear`, `YearFromTime`, `MonthFromTime`, `DateFromTime`,
  `MakeDay`); floor division `/` on `Int` in Lean is Euclidean division,
  which coincides with mathematical floor division for the positive literal
  divisors used here.
* Asynchronous upstream endpoints are modelled as oracles (functions from a
  request index or request descriptor to the response), and effectful code is
  modelled by explicit state passing (cache in / cache out) plus call traces.
-/

namespace GithubStats

/-! ## ECMAScript calendar model

`yearWindows` (src/lib/github.ts lines 121-134) manipulates dates through
`Date.UTC`, `getUTCFullYear`, `getUTCMonth`, `getUTCDate` and millisecond
comparisons.  The functions below are the ECMAScript algorithms behind those
operations, specialised to UTC. -/

/-- Milliseconds per day (`msPerDay` in ECMAScript). -/
def msPerDay : Int := 86400000

/-- ECMAScript `Day(t)`: the day number containing time value `t`. -/
def dayOf (t : Int) : Int := t / msPerDay

/-- ECMAScript leap-year predicate (`DaysInYear(y) = 366`). -/
def IsLeapYear (y : Int) : Prop := (y % 4 = 0 ∧ y % 100 ≠ 0) ∨ y % 400 = 0

instance (y : Int) : Decidable (IsLeapYear y) := by
  unfold IsLeapYear; infer_instance

/-- Number of leap days contributed by year `y` (1 in a leap year, else 0). -/
def leapDays (y : Int) : Int := if IsLeapYear y then 1 else 0

/-- ECMAScript `DayFromYear(y)`: the day number of January 1 of year `y`. -/
def dayFromYear (y : Int) : Int :=
  365 * (y - 1970) + (y - 1969) / 4 - (y - 1901) / 100 + (y - 1601) / 400

/-- ECMAScript `YearFromTime`, at day granularity: the largest year `y` with
`dayFromYear y ≤ z`.  Computed by a floor-division guess corrected by at most
one year in each direction (the correctness proof is `yearFromDay_le` /
`lt_dayFromYear_succ` below). -/
def yearFromDay (z : Int) : Int :=
  if dayFromYear (1970 + 400 * z / 146097 + 1) ≤ z then 1970 + 400 * z / 146097 + 1
  else if dayFromYear (1970 + 400 * z / 146097) ≤ z then 1970 + 400 * z / 146097
  else 1970 + 400 * z / 146097 - 1

/-- ECMAScript `DayWithinYear(t)`, at day granularity. -/
def dayWithinYear (z : Int) : Int := z - dayFromYear (yearFromDay z)

/-- First day-of-year of month `m` (0-based), where `L` is the number of leap
days of the year (the cumulative month-length table of ECMAScript
`MonthFromTime` / `DateFromTime`).  Month 12 is mapped to the full year
length, which is convenient for stating interval bounds. -/
def monthStart (L : Int) (m : Int) : Int :=
  if m ≤ 0 then 0
  else if m = 1 then 31
  else if m = 2 then 59 + L
  else if m = 3 then 90 + L
  else if m = 4 then 120 + L
  else if m = 5 then 151 + L
  else if m = 6 then 181 + L
  else if m = 7 then 212 + L
  else if m = 8 then 243 + L
  else if m = 9 then 273 + L
  else if m = 10 then 304 + L
  else if m = 11 then 334 + L
  else 365 + L

/-- The month selection of ECMAScript `MonthFromTime`, as a function of the
year's leap-day count `L` and the day-within-year `d`. -/
def monthSel (L d : Int) : Int :=
  if d < 31 then 0
  else if d < 59 + L then 1
  else if d < 90 + L then 2
  else if d < 120 + L then 3
  else if d < 151 + L then 4
  else if d < 181 + L then 5
  else if d < 212 + L then 6
  else if d < 243 + L then 7
  else if d < 273 + L then 8
  else if d < 304 + L then 9
  else if d < 334 + L then 10
  else 11

/-- ECMAScript `MonthFromTime`, at day granularity (0-based month, as
returned by `getUTCMonth`). -/
def monthFromDay (z : Int) : Int :=
  monthSel (leapDays (yearFromDay z)) (dayWithinYear z)

/-- ECMAScript `DateFromTime`, at day granularity (1-based day of month, as
returned by `getUTCDate`). -/
def dateFromDay (z : Int) : Int :=
  dayWithinYear z - monthStart (leapDays (yearFromDay z)) (monthFromDay z) + 1

/-- ECMAScript `MakeDay(y, m, d)`: the day number described by year `y`,
0-based month `m` (normalised into the year by floor division) and 1-based
day `d` (added as a pure day offset, which is how out-of-range days such as
February 29 of a non-leap year get normalised). -/
def makeDay (y m d : Int) : Int :=
  dayFromYear (y + m / 12) + monthStart (leapDays (y + m / 12)) (m % 12) + d - 1

/-- `Date.UTC(y, m, d)` in milliseconds (`MakeDay` scaled by `msPerDay`;
the time-of-day components passed by `yearWindows` are all zero). -/
def jsDateUTC (y m d : Int) : Int := makeDay y m d * msPerDay

/-- `getUTCFullYear` of a millisecond timestamp. -/
def getUTCFullYear (t : Int) : Int := yearFromDay (dayOf t)

/-- `getUTCMonth` of a millisecond timestamp. -/
def getUTCMonth (t : Int) : Int := monthFromDay (dayOf t)

/-- `getUTCDate` of a millisecond timestamp. -/
def getUTCDate (t : Int) : Int := dateFromDay (dayOf t)

/-! ### Calendar lemmas -/

theorem dayFromYear_succ (y : Int) :
    dayFromYear (y + 1) = dayFromYear y + 365 + leapDays y := by
  unfold dayFromYear leapDays IsLeapYear
  split <;> omega

theorem yearFromDay_charac (z : Int) :
    dayFromYear (yearFromDay z) ≤ z ∧ z < dayFromYear (yearFromDay z + 1) := by
  unfold yearFromDay
  split_ifs with h1 h2
  · refine ⟨h1, ?_⟩
    unfold dayFromYear at *
    omega
  · exact ⟨h2, not_le.mp h1⟩
  · have e : 1970 + 400 * z / 146097 - 1 + 1 = 1970 + 400 * z / 146097 := by ring
    rw [e]
    refine ⟨?_, not_le.mp h2⟩
    unfold dayFromYear
    omega

theorem yearFromDay_le (z : Int) : dayFromYear (yearFromDay z) ≤ z :=
  (yearFromDay_charac z).1

theorem lt_dayFromYear_succ (z : Int) : z < dayFromYear (yearFromDay z + 1) :=
  (yearFromDay_charac z).2

theorem dayWithinYear_nonneg (z : Int) : 0 ≤ dayWithinYear z := by
  have := yearFromDay_le z
  unfold dayWithinYear
  omega

theorem dayWithinYear_lt (z : Int) :
    dayWithinYear z < 365 + leapDays (yearFromDay z) := by
  have h1 := lt_dayFromYear_succ z
  have h2 := dayFromYear_succ (yearFromDay z)
  unfold dayWithinYear
  omega

theorem leapDays_cases (y : Int) : leapDays y = 0 ∨ leapDays y = 1 := by
  unfold leapDays; split <;> omega

theorem monthSel_range (L d : Int) : 0 ≤ monthSel L d ∧ monthSel L d ≤ 11 := by
  unfold monthSel
  split <;> omega

theorem monthFromDay_range (z : Int) :
    0 ≤ monthFromDay z ∧ monthFromDay z ≤ 11 :=
  monthSel_range _ _

theorem monthSel_mem (L d : Int) (h0 : 0 ≤ d) (h1 : d < 365 + L) :
    monthStart L (monthSel L d) ≤ d ∧ d < monthStart L (monthSel L d + 1) := by
  unfold monthSel
  split
  all_goals norm_num [monthStart]
  all_goals omega

theorem monthStart_leap_shift (L m : Int) (h0 : 0 ≤ m) (h11 : m ≤ 11) :
    monthStart L m = monthStart 0 m + (if 2 ≤ m then L else 0) := by
  interval_cases m <;> norm_num [monthStart]

theorem leapDays_succ_sum (y : Int) : leapDays y + leapDays (y + 1) ≤ 1 := by
  unfold leapDays IsLeapYear
  split <;> split <;> omega

/-- Converting a day number to calendar fields and back via `MakeDay` is the
identity: the `Date.UTC(getUTCFullYear, getUTCMonth, getUTCDate)` pattern of
`yearWindows` reproduces the UTC day of its argument. -/
theorem makeDay_roundtrip (z : Int) :
    makeDay (yearFromDay z) (monthFromDay z) (dateFromDay z) = z := by
  have hm := monthFromDay_range z
  have e1 : yearFromDay z + monthFromDay z / 12 = yearFromDay z := by omega
  have e2 : monthFromDay z % 12 = monthFromDay z := by omega
  unfold makeDay
  rw [e1, e2]
  unfold dateFromDay dayWithinYear
  omega

/-- Bumping the year field by one and rebuilding the date via `MakeDay` moves
the day number forward by 365 or 366 days (the month/day fields are reused
verbatim, and February 29 of a non-leap target year normalises to March 1). -/
theorem makeDay_next_year (z : Int) :
    z + 365 ≤ makeDay (yearFromDay z + 1) (monthFromDay z) (dateFromDay z) ∧
    makeDay (yearFromDay z + 1) (monthFromDay z) (dateFromDay z) ≤ z + 366 := by
  have hm := monthFromDay_range z
  have e1 : yearFromDay z + 1 + monthFromDay z / 12 = yearFromDay z + 1 := by omega
  have e2 : monthFromDay z % 12 = monthFromDay z := by omega
  have h1 := monthStart_leap_shift (leapDays (yearFromDay z + 1)) (monthFromDay z) hm.1 hm.2
  have h2 := monthStart_leap_shift (leapDays (yearFromDay z)) (monthFromDay z) hm.1 hm.2
  have hL0 := leapDays_cases (yearFromDay z)
  have hL1 := leapDays_cases (yearFromDay z + 1)
  have hdfy := dayFromYear_succ (yearFromDay z)
  unfold makeDay
  rw [e1, e2]
  unfold dateFromDay dayWithinYear
  rcases le_or_lt 2 (monthFromDay z) with h2m | h2m
  · rw [if_pos h2m] at h1 h2
    omega
  · rw [if_neg (not_le.mpr h2m)] at h1 h2
    omega

/-! ## `yearWindows` (src/lib/github.ts lines 121-134) -/

/-- The `next` timestamp computed by one iteration of the `yearWindows` loop:
`Date.UTC(cur.getUTCFullYear() + 1, cur.getUTCMonth(), cur.getUTCDate())`. -/
def nextOf (cur : Int) : Int :=
  jsDateUTC (getUTCFullYear cur + 1) (getUTCMonth cur) (getUTCDate cur)

/-- The UTC-midnight timestamp of the day containing `cur`:
`Date.UTC(cur.getUTCFullYear(), cur.getUTCMonth(), cur.getUTCDate())`. -/
def dayStartOf (cur : Int) : Int :=
  jsDateUTC (getUTCFullYear cur) (getUTCMonth cur) (getUTCDate cur)

theorem dayStartOf_eq (t : Int) : dayStartOf t = dayOf t * msPerDay := by
  unfold dayStartOf jsDateUTC getUTCFullYear getUTCMonth getUTCDate
  rw [makeDay_roundtrip]

theorem nextOf_gt (cur : Int) : cur < nextOf cur := by
  have h := (makeDay_next_year (dayOf cur)).1
  unfold nextOf jsDateUTC getUTCFullYear getUTCMonth getUTCDate
  unfold dayOf msPerDay at *
  omega

theorem nextOf_le (cur : Int) (hal : msPerDay ∣ cur) :
    nextOf cur ≤ cur + 366 * msPerDay := by
  obtain ⟨k, hk⟩ := hal
  subst hk
  have h := (makeDay_next_year (dayOf (msPerDay * k))).2
  unfold nextOf jsDateUTC getUTCFullYear getUTCMonth getUTCDate
  unfold dayOf msPerDay at *
  omega

theorem nextOf_aligned (cur : Int) : msPerDay ∣ nextOf cur :=
  ⟨makeDay (getUTCFullYear cur + 1) (getUTCMonth cur) (getUTCDate cur),
    by unfold nextOf jsDateUTC; ring⟩

theorem dayStartOf_le (t : Int) : dayStartOf t ≤ t := by
  rw [dayStartOf_eq]
  unfold dayOf msPerDay
  omega

theorem dayStartOf_aligned (t : Int) : msPerDay ∣ dayStartOf t := by
  rw [dayStartOf_eq]
  exact ⟨dayOf t, mul_comm _ _⟩

/-- The loop of `yearWindows`: starting from timestamp `cur`, while
`cur < end` push the window `[cur, min(next, end))` and continue from `next`.
Termination is by `nextOf_gt`. -/
def yearWindowsGo (e : Int) (cur : Int) : List (Int × Int) :=
  if cur < e then
    (cur, min (nextOf cur) e) :: yearWindowsGo e (nextOf cur)
  else []
termination_by (e - cur).toNat
decreasing_by
  have := nextOf_gt cur
  omega

/-- `yearWindows(fromDate, toDate)` (src/lib/github.ts lines 121-134): the
initial cursor is the UTC midnight of `fromDate`'s day. -/
def yearWindows (fromMs toMs : Int) : List (Int × Int) :=
  yearWindowsGo toMs (dayStartOf fromMs)

theorem yearWindowsGo_eq (e cur : Int) :
    yearWindowsGo e cur =
      if cur < e then
        (cur, min (nextOf cur) e) :: yearWindowsGo e (nextOf cur)
      else [] := by
  rw [yearWindowsGo.eq_def]

theorem yearWindowsGo_ne_nil (e cur : Int) (h : cur < e) :
    yearWindowsGo e cur ≠ [] := by
  rw [yearWindowsGo_eq, if_pos h]
  simp

theorem yearWindowsGo_head (e cur : Int) (h : cur < e) :
    (yearWindowsGo e cur).head? = some (cur, min (nextOf cur) e) := by
  rw [yearWindowsGo_eq, if_pos h]
  rfl

theorem yearWindowsGo_last (e cur : Int) (h : cur < e) :
    (yearWindowsGo e cur).getLast?.map Prod.snd = some e := by
  revert h
  induction cur using yearWindowsGo.induct e with
  | case1 x hx ih =>
    intro _
    rw [yearWindowsGo_eq, if_pos hx]
    by_cases hn : nextOf x < e
    · have hnn := yearWindowsGo_ne_nil e (nextOf x) hn
      obtain ⟨y, ys, hys⟩ := List.exists_cons_of_ne_nil hnn
      have ihh := ih hn
      rw [hys] at ihh ⊢
      rw [List.getLast?_cons_cons]
      exact ihh
    · rw [yearWindowsGo_eq, if_neg hn]
      have : min (nextOf x) e = e := min_eq_right (le_of_not_lt hn)
      simp [this]
  | case2 x hx =>
    intro h
    exact absurd h hx

theorem yearWindowsGo_chain (e cur : Int) :
    List.Chain' (fun a b : Int × Int => a.2 = b.1) (yearWindowsGo e cur) := by
  induction cur using yearWindowsGo.induct e with
  | case1 x hx ih =>
    rw [yearWindowsGo_eq, if_pos hx]
    refine List.chain'_cons'.mpr ⟨?_, ih⟩
    intro b hb
    by_cases hn : nextOf x < e
    · rw [yearWindowsGo_head e (nextOf x) hn] at hb
      simp only [Option.mem_def, Option.some.injEq] at hb
      rw [← hb]
      exact min_eq_left (le_of_lt hn)
    · rw [yearWindowsGo_eq, if_neg hn] at hb
      simp at hb
  | case2 x hx =>
    rw [yearWindowsGo_eq, if_neg hx]
    exact List.chain'_nil

theorem yearWindowsGo_mem (e cur : Int) (hal : msPerDay ∣ cur) :
    ∀ w ∈ yearWindowsGo e cur,
      w.1 < w.2 ∧ w.2 - w.1 ≤ 366 * msPerDay ∧ msPerDay ∣ w.1 := by
  revert hal
  induction cur using yearWindowsGo.induct e with
  | case1 x hx ih =>
    intro hal w hw
    rw [yearWindowsGo_eq, if_pos hx] at hw
    rcases List.mem_cons.mp hw with hw1 | hw2
    · subst hw1
      refine ⟨lt_min (nextOf_gt x) hx, ?_, hal⟩
      have h1 := nextOf_le x hal
      have h2 : min (nextOf x) e ≤ nextOf x := min_le_left _ _
      simp only
      omega
    · exact ih (nextOf_aligned x) w hw2
  | case2 x hx =>
    intro hal w hw
    rw [yearWindowsGo_eq, if_neg hx] at hw
    simp at hw

/-- The tiling property of `yearWindows T N` asserted by the specification:
a non-empty list of windows whose first window starts at `T`'s UTC day
(midnight), whose last window ends exactly at `N`, in which each window's end
equals the next window's start (consecutive, hence gap-free and
non-overlapping), and in which every window is non-empty, UTC-day-aligned at
its start, and at most one (leap-sized) calendar year, i.e. 366 days, long. -/
def YearWindowsTiling (T N : Int) : Prop :=
  yearWindows T N ≠ [] ∧
  (yearWindows T N).head?.map Prod.fst = some (dayOf T * msPerDay) ∧
  (yearWindows T N).getLast?.map Prod.snd = some N ∧
  List.Chain' (fun a b : Int × Int => a.2 = b.1) (yearWindows T N) ∧
  (∀ w ∈ yearWindows T N,
    w.1 < w.2 ∧ w.2 - w.1 ≤ 366 * msPerDay ∧ msPerDay ∣ w.1)

/-- C3: for every pair of timestamps `T` and `N` with `N > T`,
`yearWindows T N` returns a list of consecutive, non-overlapping windows,
each UTC-day-aligned at its start and at most one year long, whose first
window starts at `T`'s UTC day, whose last window ends exactly at `N`, and
which tile the interval with no gaps or overlaps (each window's end equals
the next window's start). -/
theorem yearWindows_tiling (T N : Int) (h : T < N) : YearWindowsTiling T N := by
  have hd := dayStartOf_le T
  have hcur : dayStartOf T < N := lt_of_le_of_lt hd h
  unfold YearWindowsTiling yearWindows
  refine ⟨yearWindowsGo_ne_nil _ _ hcur, ?_, yearWindowsGo_last _ _ hcur,
    yearWindowsGo_chain _ _, yearWindowsGo_mem _ _ (dayStartOf_aligned T)⟩
  rw [yearWindowsGo_head _ _ hcur]
  simp [dayStartOf_eq]

/-- Witness for C3 at the concrete instant `T = 0`, `N = one day`. -/
theorem yearWindows_tiling_witness :
    (0 : Int) < 86400000 ∧ YearWindowsTiling 0 86400000 :=
  ⟨by norm_num, yearWindows_tiling 0 86400000 (by norm_num)⟩

/-! ## In-memory cache with TTL (src/lib/github.ts lines 4-26)

`Date.now()` is passed explicitly as `now`; the `Map` is modelled as an
association list without duplicate keys (maintained by `setCache`, which
filters the key before inserting, matching `Map.set` overwrite semantics).
`getCached` deletes an expired entry, so it returns the possibly-updated
cache alongside the looked-up value. -/

structure CacheEntry (α : Type) where
  data : α
  expiry : Int
deriving Repr, DecidableEq

def Cache (α : Type) : Type := List (String × CacheEntry α)

/-- `cache.get(key)` of the underlying `Map`. -/
def cacheLookup {α : Type} (c : Cache α) (key : String) : Option (CacheEntry α) :=
  (List.find? (fun p => p.1 == key) c).map Prod.snd

/-- `cache.delete(key)` of the underlying `Map`. -/
def cacheDelete {α : Type} (c : Cache α) (key : String) : Cache α :=
  List.filter (fun p => ¬ p.1 == key) c

/-- `getCached<T>(key)` (lines 14-22): absent if no entry; if
`Date.now() > entry.expiry` the entry is deleted and the lookup reports
absent; otherwise the stored data is returned. -/
def getCached {α : Type} (now : Int) (c : Cache α) (key : String) :
    Option α × Cache α :=
  match cacheLookup c key with
  | none => (none, c)
  | some entry =>
    if now > entry.expiry then (none, cacheDelete c key)
    else (some entry.data, c)

/-- `setCache<T>(key, data, ttl)` (lines 24-26): insert or overwrite with
`expiry = Date.now() + ttl`.  Every call site in the source passes `ttl`
explicitly, so the default parameter is dropped. -/
def setCache {α : Type} (now : Int) (c : Cache α) (key : String) (data : α)
    (ttl : Int) : Cache α :=
  (key, ⟨data, now + ttl⟩) :: cacheDelete c key

/-- `CACHE_TTL` (line 11): six hours, in milliseconds. -/
def CACHE_TTL : Int := 6 * 60 * 60 * 1000

/-- `SHORT_CACHE_TTL` (line 12): five minutes, in milliseconds. -/
def SHORT_CACHE_TTL : Int := 5 * 60 * 1000

theorem cacheLookup_setCache_self {α : Type} (now : Int) (c : Cache α)
    (key : String) (data : α) (ttl : Int) :
    cacheLookup (setCache now c key data ttl) key = some ⟨data, now + ttl⟩ := by
  unfold cacheLookup setCache
  simp [List.find?_cons]

theorem getCached_setCache_fresh {α : Type} (t0 t1 : Int) (c : Cache α)
    (key : String) (data : α) (ttl : Int) (h : t1 ≤ t0 + ttl) :
    (getCached t1 (setCache t0 c key data ttl) key).1 = some data := by
  unfold getCached
  rw [cacheLookup_setCache_self]
  simp only
  rw [if_neg (by omega)]

theorem getCached_setCache_expired {α : Type} (t0 t1 : Int) (c : Cache α)
    (key : String) (data : α) (ttl : Int) (h : t0 + ttl < t1) :
    (getCached t1 (setCache t0 c key data ttl) key).1 = none := by
  unfold getCached
  rw [cacheLookup_setCache_self]
  simp only
  rw [if_pos (by omega)]

/-! ## Data model (src/lib/github.ts lines 28-51 and 317-335) -/

/-- `RepoRest` (lines 28-33): the repository metadata used from the REST
listing. -/
structure RepoRest where
  full_name : String
  fork : Bool
  stargazers_count : Int
  forks_count : Int
deriving Repr, DecidableEq

/-- `ContributorWeek` (line 35): weekly additions `a`, deletions `d`,
commits `c`. -/
structure ContributorWeek where
  a : Int
  d : Int
  c : Int
deriving Repr, DecidableEq

/-- `ContributorStat` (lines 36-40).  `author` is `null` or `{login}`;
only the login string is consumed, so it is modelled as `Option String`. -/
structure ContributorStat where
  author : Option String
  total : Int
  weeks : List ContributorWeek
deriving Repr, DecidableEq

/-- The tagged per-repository outcome of `getContributorStatsForRepo`
(line 247): `{status:"ok",stats} | {status:"pending"} | {status:"failed"}`. -/
inductive RepoOutcome where
  | ok (stats : List ContributorStat)
  | pending
  | failed
deriving Repr, DecidableEq

/-- `GitHubStatistics` (lines 317-335). -/
structure GitHubStatistics where
  login : String
  stars : Int
  forks : Int
  contributionsAllTime : Option Int
  locChanged : Int
  commitsCounted : Int
  reposScanned : Nat
  reposMatched : Nat
  reposPending : Nat
  reposFailed : Nat
  reposWithContributions : Nat
deriving Repr, DecidableEq

/-- The values stored in the process-wide cache map; the three key families
(`contrib-all:*`, `contrib:*`, `stats:*`) store the three payload types. -/
inductive CVal where
  | num (n : Int)
  | outcome (o : RepoOutcome)
  | stats (s : GitHubStatistics)
deriving Repr, DecidableEq

/-- A REST response as consumed by `getContributorStatsForRepo`: the HTTP
status and the parsed body (`none` models both the absent body of a 202 and
a body that is not an array, both of which the caller checks). -/
structure RestResp where
  status : Int
  data : Option (List ContributorStat)
deriving Repr, DecidableEq

/-- `res.ok` of the Fetch API: status in the range 200-299. -/
def respOk (r : RestResp) : Prop := 200 ≤ r.status ∧ r.status ≤ 299

instance (r : RestResp) : Decidable (respOk r) := by
  unfold respOk; infer_instance

/-- `getCached` specialised to the `contrib:*` key family (the unchecked
`getCached<...>` cast in the source; the key-family discipline makes any
other constructor unreachable, and the model maps it to a miss). -/
def getCachedOutcome (now : Int) (c : Cache CVal) (key : String) :
    Option RepoOutcome × Cache CVal :=
  match getCached now c key with
  | (some (CVal.outcome o), c1) => (some o, c1)
  | (_, c1) => (none, c1)

/-- `getCached` specialised to the `contrib-all:*` key family. -/
def getCachedNum (now : Int) (c : Cache CVal) (key : String) :
    Option Int × Cache CVal :=
  match getCached now c key with
  | (some (CVal.num n), c1) => (some n, c1)
  | (_, c1) => (none, c1)

/-- `getCached` specialised to the `stats:*` key family. -/
def getCachedStats (now : Int) (c : Cache CVal) (key : String) :
    Option GitHubStatistics × Cache CVal :=
  match getCached now c key with
  | (some (CVal.stats s), c1) => (some s, c1)
  | (_, c1) => (none, c1)

/-! ## `getContributorStatsForRepo` (src/lib/github.ts lines 244-294) -/

/-- `retries` (line 256). -/
def contribRetries : Nat := 2

/-- `delays` (line 257), in milliseconds. -/
def contribDelays : List Int := [100, 250]

/-- The retry loop of `getContributorStatsForRepo` (lines 259-289), driven by
the response oracle `resp` (indexed by attempt number).  The loop counter is
represented by the remaining attempts `rem`; the attempt index is
`retries - rem`, so `rem = 0` is exactly the source's `attempt === retries`
final attempt.  Returns the outcome, the number of requests issued, and the
list of sleep durations performed (each `delays[min(attempt,len-1)]`).
The source's post-loop `return pending` (lines 291-293) is unreachable
because the final attempt always returns.

`contribSettle` is the non-202 classification shared by every iteration
(lines 275-288): a non-success status or a non-array body is `failed`,
otherwise `ok` with the parsed statistics. -/
def contribSettle (r : RestResp) : RepoOutcome :=
  if ¬ respOk r then RepoOutcome.failed
  else match r.data with
    | some stats => RepoOutcome.ok stats
    | none => RepoOutcome.failed

def contribFetchLoop (resp : Nat → RestResp) (retries : Nat)
    (delays : List Int) : Nat → RepoOutcome × Nat × List Int
  | 0 =>
    if (resp retries).status = 202 then (RepoOutcome.pending, 1, [])
    else (contribSettle (resp retries), 1, [])
  | rem + 1 =>
    if (resp (retries - (rem + 1))).status = 202 then
      ((contribFetchLoop resp retries delays rem).1,
        (contribFetchLoop resp retries delays rem).2.1 + 1,
        delays.getD (min (retries - (rem + 1)) (delays.length - 1)) 0 ::
          (contribFetchLoop resp retries delays rem).2.2)
    else (contribSettle (resp (retries - (rem + 1))), 1, [])

/-- `getContributorStatsForRepo(fullName, token)` (lines 244-294): consult
the cache under `contrib:<fullName>`; on a miss run the retry loop and cache
the outcome - `ok` with `CACHE_TTL` (line 287), `pending` and `failed` with
`SHORT_CACHE_TTL` (lines 268, 277, 282, 292).  Returns the outcome, the
updated cache, the number of requests issued and the sleeps performed. -/
def getContributorStatsForRepo (now : Int) (cache : Cache CVal)
    (fullName : String) (resp : Nat → RestResp) :
    RepoOutcome × Cache CVal × Nat × List Int :=
  match getCachedOutcome now cache ("contrib:" ++ fullName) with
  | (some cachedRes, cache1) => (cachedRes, cache1, 0, [])
  | (none, cache1) =>
    let res := contribFetchLoop resp contribRetries contribDelays contribRetries
    let ttl := match res.1 with
      | RepoOutcome.ok _ => CACHE_TTL
      | RepoOutcome.pending => SHORT_CACHE_TTL
      | RepoOutcome.failed => SHORT_CACHE_TTL
    (res.1, setCache now cache1 ("contrib:" ++ fullName) (CVal.outcome res.1) ttl,
      res.2.1, res.2.2)

theorem contribFetchLoop_all202 (resp : Nat → RestResp) (retries : Nat)
    (delays : List Int) (h : ∀ i, i ≤ retries → (resp i).status = 202) :
    ∀ rem, rem ≤ retries → contribFetchLoop resp retries delays rem =
      (RepoOutcome.pending, rem + 1,
        (List.range rem).map
          (fun j => delays.getD (min (retries - rem + j) (delays.length - 1)) 0)) := by
  intro rem
  induction rem with
  | zero =>
    intro _
    simp [contribFetchLoop, h retries le_rfl]
  | succ rem ih =>
    intro hle
    have hatt : (resp (retries - (rem + 1))).status = 202 := h _ (by omega)
    rw [contribFetchLoop, if_pos hatt, ih (by omega)]
    refine congrArg _ (congrArg _ ?_)
    rw [List.range_succ_eq_map, List.map_cons, List.map_map]
    refine congrArg₂ _ (by simp) ?_
    refine List.map_congr_left ?_
    intro j _
    have e : retries - (rem + 1) + (j + 1) = retries - rem + j := by omega
    simp [Function.comp, e]

/-- C5: a fetch whose every attempt reports 202 ends in the outcome
`pending` (not an error), issues exactly `retries + 1` requests, and before
each retry sleeps `delays[min(attempt, delays.length - 1)]`. -/
theorem contribFetch_pending_exhaustion (now : Int) (cache : Cache CVal)
    (fullName : String) (resp : Nat → RestResp)
    (hmiss : (getCachedOutcome now cache ("contrib:" ++ fullName)).1 = none)
    (h202 : ∀ i, i ≤ contribRetries → (resp i).status = 202) :
    (getContributorStatsForRepo now cache fullName resp).1 = RepoOutcome.pending ∧
    (getContributorStatsForRepo now cache fullName resp).2.2.1 = contribRetries + 1 ∧
    (getContributorStatsForRepo now cache fullName resp).2.2.2 =
      (List.range contribRetries).map
        (fun attempt => contribDelays.getD
          (min attempt (contribDelays.length - 1)) 0) := by
  rcases hE : getCachedOutcome now cache ("contrib:" ++ fullName) with ⟨v, c1⟩
  rw [hE] at hmiss
  simp only at hmiss
  subst hmiss
  unfold getContributorStatsForRepo
  rw [hE]
  rw [contribFetchLoop_all202 resp contribRetries contribDelays h202 contribRetries le_rfl]
  refine ⟨rfl, rfl, ?_⟩
  simp

/-- Witness for C5: empty cache, every attempt answers 202. -/
theorem contribFetch_pending_exhaustion_witness :
    (getCachedOutcome 0 ([] : Cache CVal) ("contrib:" ++ "o/r")).1 = none ∧
    (getContributorStatsForRepo 0 [] "o/r" (fun _ => ⟨202, none⟩)).1 =
      RepoOutcome.pending ∧
    (getContributorStatsForRepo 0 [] "o/r" (fun _ => ⟨202, none⟩)).2.2.1 =
      contribRetries + 1 ∧
    (getContributorStatsForRepo 0 [] "o/r" (fun _ => ⟨202, none⟩)).2.2.2 =
      (List.range contribRetries).map
        (fun attempt => contribDelays.getD
          (min attempt (contribDelays.length - 1)) 0) :=
  ⟨rfl, contribFetch_pending_exhaustion 0 [] "o/r" (fun _ => ⟨202, none⟩)
    rfl (fun _ _ => rfl)⟩

/-! ## `getAllTimeContributions` (src/lib/github.ts lines 194-242) -/

/-- `String.prototype.toLowerCase()`, for the ASCII logins involved. -/
def toLowerStr (s : String) : String := ⟨s.data.map Char.toLower⟩

/-- `getAllTimeContributions(login, token)` (lines 194-242).  The two
GraphQL interactions are oracles: `createdAt` is the result of the
creation-timestamp query (`none` when the query fails, in which case the
enclosing `try`/`catch` returns `null`), and `windowTotal` maps a window to
the result of its contribution-calendar query (`none` when that query
failed, reproducing the per-window `.catch(() => null)` of line 226).
Failed windows are skipped by the summation loop (lines 230-235); the `?? 0`
on a present total is the identity on numbers.  A computed total is cached
under `contrib-all:<login lowercased>` with `CACHE_TTL` (line 237). -/
def getAllTimeContributions (now : Int) (cache : Cache CVal) (login : String)
    (createdAt : Option Int) (windowTotal : Int × Int → Option Int) :
    Option Int × Cache CVal :=
  match getCachedNum now cache ("contrib-all:" ++ toLowerStr login) with
  | (some cached, cache1) => (some cached, cache1)
  | (none, cache1) =>
    match createdAt with
    | none => (none, cache1)
    | some created =>
      let results := (yearWindows created now).map windowTotal
      let total := results.foldl (fun t d => t + d.getD 0) 0
      (some total,
        setCache now cache1 ("contrib-all:" ++ toLowerStr login)
          (CVal.num total) CACHE_TTL)

/-- C1 (amended): on a cache miss, `getAllTimeContributions` returns `null`
exactly when the creation-timestamp query failed; otherwise it returns the
sum of the totals of the windows whose query succeeded, failed windows
contributing zero. -/
theorem allTime_degradation (now : Int) (cache : Cache CVal) (login : String)
    (createdAt : Option Int) (windowTotal : Int × Int → Option Int)
    (hmiss : (getCachedNum now cache ("contrib-all:" ++ toLowerStr login)).1 = none) :
    (getAllTimeContributions now cache login createdAt windowTotal).1 =
      match createdAt with
      | none => none
      | some created =>
        some (((yearWindows created now).map windowTotal).foldl
          (fun t d => t + d.getD 0) 0) := by
  rcases hE : getCachedNum now cache ("contrib-all:" ++ toLowerStr login) with ⟨v, c1⟩
  rw [hE] at hmiss
  simp only at hmiss
  subst hmiss
  unfold getAllTimeContributions
  rw [hE]
  cases createdAt <;> rfl

/-- Witness for C1's amended theorem: empty cache and a failed
creation-timestamp query give `null`. -/
theorem allTime_degradation_witness :
    (getCachedNum 0 ([] : Cache CVal) ("contrib-all:" ++ toLowerStr "U")).1 = none ∧
    (getAllTimeContributions 0 [] "U" none (fun _ => some 3)).1 = none :=
  ⟨rfl, allTime_degradation 0 [] "U" none (fun _ => some 3) rfl⟩

/-- C1 counterexample: with an account created at the epoch, "now" two
(non-leap) years later, the first window's contribution-calendar query
failing and the second returning 7, `getAllTimeContributions` returns the
partial sum `7` over only the window that succeeded, not `null`. -/
theorem allTime_partial_sum_counterexample :
    (fun w : Int × Int => if w.1 = 0 then none else some 7)
        (0, 31536000000) = none ∧
    (getAllTimeContributions 63072000000 [] "u" (some 0)
        (fun w => if w.1 = 0 then none else some 7)).1 = some 7 ∧
    some (7 : Int) ≠ none := by
  have h0 : dayStartOf 0 = 0 := by decide
  have h1 : nextOf 0 = 31536000000 := by decide
  have h2 : nextOf 31536000000 = 63072000000 := by decide
  have hyw : yearWindows 0 63072000000 =
      [(0, 31536000000), (31536000000, 63072000000)] := by
    unfold yearWindows
    rw [h0, yearWindowsGo_eq, if_pos (by norm_num), h1,
      yearWindowsGo_eq, if_pos (by norm_num), h2,
      yearWindowsGo_eq, if_neg (by norm_num)]
    norm_num
  refine ⟨rfl, ?_, by simp⟩
  unfold getAllTimeContributions
  rw [show getCachedNum 63072000000 [] ("contrib-all:" ++ toLowerStr "u") =
    (none, []) from rfl]
  simp only [hyw]
  norm_num

/-! ## Final-aggregate caching (src/lib/github.ts lines 431-437) -/

/-- The conditional caching of the full aggregate record: the record is
cached (with `CACHE_TTL`) only when the decisive-outcome rate
`(reposMatched + reposFailed) / reposScanned` exceeds 0.5, with an empty
scan counting as rate 1.  For the integer counts involved the floating-point
comparison `rate > 0.5` is exactly `2 * (matched + failed) > scanned`. -/
def cacheFinalStats (now : Int) (cache : Cache CVal) (key : String)
    (stats : GitHubStatistics) : Cache CVal :=
  if stats.reposScanned = 0 ∨
      2 * (stats.reposMatched + stats.reposFailed) > stats.reposScanned then
    setCache now cache key (CVal.stats stats) CACHE_TTL
  else cache

/-- C4 (amended): on a cache miss, a terminating `getContributorStatsForRepo`
call caches its outcome with `CACHE_TTL` when the outcome is `ok` and with
`SHORT_CACHE_TTL` when it is `pending` or `failed`; a computed all-time
total and a written aggregate record are cached with `CACHE_TTL`. -/
theorem cache_ttl_assignment :
    (∀ (now : Int) (cache : Cache CVal) (fullName : String)
        (resp : Nat → RestResp),
      (getCachedOutcome now cache ("contrib:" ++ fullName)).1 = none →
      cacheLookup (getContributorStatsForRepo now cache fullName resp).2.1
          ("contrib:" ++ fullName) =
        some ⟨CVal.outcome (getContributorStatsForRepo now cache fullName resp).1,
          now + (match (getContributorStatsForRepo now cache fullName resp).1 with
            | RepoOutcome.ok _ => CACHE_TTL
            | RepoOutcome.pending => SHORT_CACHE_TTL
            | RepoOutcome.failed => SHORT_CACHE_TTL)⟩) ∧
    (∀ (now : Int) (cache : Cache CVal) (login : String) (created : Int)
        (windowTotal : Int × Int → Option Int),
      (getCachedNum now cache ("contrib-all:" ++ toLowerStr login)).1 = none →
      cacheLookup (getAllTimeContributions now cache login (some created)
            windowTotal).2 ("contrib-all:" ++ toLowerStr login) =
        some ⟨CVal.num (((yearWindows created now).map windowTotal).foldl
            (fun t d => t + d.getD 0) 0), now + CACHE_TTL⟩) ∧
    (∀ (now : Int) (cache : Cache CVal) (key : String)
        (stats : GitHubStatistics),
      stats.reposScanned = 0 ∨
        2 * (stats.reposMatched + stats.reposFailed) > stats.reposScanned →
      cacheLookup (cacheFinalStats now cache key stats) key =
        some ⟨CVal.stats stats, now + CACHE_TTL⟩) := by
  refine ⟨?_, ?_, ?_⟩
  · intro now cache fullName resp hmiss
    rcases hE : getCachedOutcome now cache ("contrib:" ++ fullName) with ⟨v, c1⟩
    rw [hE] at hmiss
    simp only at hmiss
    subst hmiss
    unfold getContributorStatsForRepo
    rw [hE]
    simp only
    rw [cacheLookup_setCache_self]
  · intro now cache login created windowTotal hmiss
    rcases hE : getCachedNum now cache ("contrib-all:" ++ toLowerStr login)
      with ⟨v, c1⟩
    rw [hE] at hmiss
    simp only at hmiss
    subst hmiss
    unfold getAllTimeContributions
    rw [hE]
    simp only
    rw [cacheLookup_setCache_self]
  · intro now cache key stats hcond
    unfold cacheFinalStats
    rw [if_pos hcond, cacheLookup_setCache_self]

/-- Witness for C4's amended theorem, exercising all three conjuncts at
concrete inputs (a failing per-repository response, a zero-window all-time
computation, and an empty-scan aggregate record). -/
theorem cache_ttl_assignment_witness :
    cacheLookup (getContributorStatsForRepo 0 [] "o/r"
        (fun _ => ⟨500, none⟩)).2.1 ("contrib:" ++ "o/r") =
      some ⟨CVal.outcome (getContributorStatsForRepo 0 [] "o/r"
          (fun _ => ⟨500, none⟩)).1,
        0 + (match (getContributorStatsForRepo 0 [] "o/r"
            (fun _ => ⟨500, none⟩)).1 with
          | RepoOutcome.ok _ => CACHE_TTL
          | RepoOutcome.pending => SHORT_CACHE_TTL
          | RepoOutcome.failed => SHORT_CACHE_TTL)⟩ ∧
    cacheLookup (getAllTimeContributions 0 [] "u" (some 0)
        (fun _ => some 3)).2 ("contrib-all:" ++ toLowerStr "u") =
      some ⟨CVal.num (((yearWindows 0 0).map (fun _ => some 3)).foldl
          (fun t d => t + d.getD 0) 0), 0 + CACHE_TTL⟩ ∧
    cacheLookup (cacheFinalStats 0 [] "stats:u:50:false"
        ⟨"u", 0, 0, none, 0, 0, 0, 0, 0, 0, 0⟩) "stats:u:50:false" =
      some ⟨CVal.stats ⟨"u", 0, 0, none, 0, 0, 0, 0, 0, 0, 0⟩, 0 + CACHE_TTL⟩ :=
  ⟨cache_ttl_assignment.1 0 [] "o/r" (fun _ => ⟨500, none⟩) rfl,
   cache_ttl_assignment.2.1 0 [] "u" 0 (fun _ => some 3) rfl,
   cache_ttl_assignment.2.2 0 [] "stats:u:50:false" _ (Or.inl rfl)⟩

/-- C4 counterexample: a repository fetch failing with HTTP 500 produces the
outcome `failed`, which the code caches with `SHORT_CACHE_TTL`, not with the
long `CACHE_TTL` the claim assigns to the stable outcome `failed` (so the
short TTL is not exclusive to `pending` either). -/
theorem failed_short_ttl_counterexample :
    (getContributorStatsForRepo 0 [] "o/r" (fun _ => ⟨500, none⟩)).1 =
      RepoOutcome.failed ∧
    cacheLookup (getContributorStatsForRepo 0 [] "o/r"
        (fun _ => ⟨500, none⟩)).2.1 ("contrib:" ++ "o/r") =
      some ⟨CVal.outcome RepoOutcome.failed, 0 + SHORT_CACHE_TTL⟩ ∧
    SHORT_CACHE_TTL ≠ CACHE_TTL := by
  refine ⟨rfl, by decide, by decide⟩

theorem contribFetchLoop_requests_pos (resp : Nat → RestResp) (retries : Nat)
    (delays : List Int) (rem : Nat) :
    1 ≤ (contribFetchLoop resp retries delays rem).2.1 := by
  cases rem <;> unfold contribFetchLoop <;> split <;> dsimp only <;> omega

/-- C9 (amended): `getCached` returns the stored value exactly when an entry
is present and `now ≤ expiry` (the code evicts only on `now > expiry`, so a
lookup at exactly the expiry instant still hits); when the entry has
`expiry < now` it is evicted and the lookup reports absence.  In particular
a `pending` outcome cached at `t0` with the short TTL is a cache miss at any
`t1 > t0 + SHORT_CACHE_TTL`, and `getContributorStatsForRepo` then performs
at least one fresh upstream request. -/
theorem getCached_semantics :
    (∀ (α : Type) (now : Int) (c : Cache α) (key : String),
      (∀ v, (getCached now c key).1 = some v ↔
        ∃ e, cacheLookup c key = some e ∧ now ≤ e.expiry ∧ e.data = v) ∧
      (∀ e, cacheLookup c key = some e → e.expiry < now →
        getCached now c key = (none, cacheDelete c key)) ∧
      (cacheLookup c key = none → getCached now c key = (none, c))) ∧
    (∀ (t0 t1 : Int) (c : Cache CVal) (fullName : String)
        (resp2 : Nat → RestResp),
      t0 + SHORT_CACHE_TTL < t1 →
      (getCachedOutcome t1
          (setCache t0 c ("contrib:" ++ fullName)
            (CVal.outcome RepoOutcome.pending) SHORT_CACHE_TTL)
          ("contrib:" ++ fullName)).1 = none ∧
      1 ≤ (getContributorStatsForRepo t1
          (setCache t0 c ("contrib:" ++ fullName)
            (CVal.outcome RepoOutcome.pending) SHORT_CACHE_TTL)
          fullName resp2).2.2.1) := by
  constructor
  · intro α now c key
    refine ⟨?_, ?_, ?_⟩
    · intro v
      unfold getCached
      split
      · rename_i hL
        simp [hL]
      · rename_i entry hL
        split
        · rename_i hgt
          simp only [hL]
          constructor
          · intro hf
            simp at hf
          · rintro ⟨e, he, hle, rfl⟩
            cases he
            omega
        · rename_i hngt
          simp only [hL, Option.some.injEq]
          constructor
          · rintro rfl
            exact ⟨entry, rfl, by omega, rfl⟩
          · rintro ⟨e, he, hle, rfl⟩
            cases he
            rfl
    · intro e hL hlt
      unfold getCached
      rw [hL]
      dsimp only
      rw [if_pos (by omega)]
    · intro hL
      unfold getCached
      rw [hL]
  · intro t0 t1 c fullName resp2 hlt
    have hmiss : (getCachedOutcome t1
        (setCache t0 c ("contrib:" ++ fullName)
          (CVal.outcome RepoOutcome.pending) SHORT_CACHE_TTL)
        ("contrib:" ++ fullName)).1 = none := by
      unfold getCachedOutcome
      have h := getCached_setCache_expired t0 t1 c ("contrib:" ++ fullName)
        (CVal.outcome RepoOutcome.pending) SHORT_CACHE_TTL hlt
      rcases hE : getCached t1
          (setCache t0 c ("contrib:" ++ fullName)
            (CVal.outcome RepoOutcome.pending) SHORT_CACHE_TTL)
          ("contrib:" ++ fullName) with ⟨v, c1⟩
      rw [hE] at h
      simp only at h
      subst h
      rfl
    refine ⟨hmiss, ?_⟩
    rcases hE : getCachedOutcome t1
        (setCache t0 c ("contrib:" ++ fullName)
          (CVal.outcome RepoOutcome.pending) SHORT_CACHE_TTL)
        ("contrib:" ++ fullName) with ⟨v, c1⟩
    rw [hE] at hmiss
    simp only at hmiss
    subst hmiss
    unfold getContributorStatsForRepo
    rw [hE]
    simp only
    exact contribFetchLoop_requests_pos _ _ _ _

/-- Witness for C9's amended theorem at concrete inputs. -/
theorem getCached_semantics_witness :
    ((getCached 5 ([("k", ⟨(7:Int), 9⟩)] : Cache Int) "k").1 = some 7 ↔
      ∃ e, cacheLookup ([("k", ⟨(7:Int), 9⟩)] : Cache Int) "k" = some e ∧
        (5:Int) ≤ e.expiry ∧ e.data = 7) ∧
    ((0:Int) + SHORT_CACHE_TTL < 300001 ∧
      1 ≤ (getContributorStatsForRepo 300001
          (setCache 0 [] ("contrib:" ++ "o/r")
            (CVal.outcome RepoOutcome.pending) SHORT_CACHE_TTL)
          "o/r" (fun _ => ⟨200, some []⟩)).2.2.1) :=
  ⟨(getCached_semantics.1 Int 5 [("k", ⟨7, 9⟩)] "k").1 7,
   by decide,
   (getCached_semantics.2 0 300001 [] "o/r" (fun _ => ⟨200, some []⟩)
      (by decide)).2⟩

/-- C9 counterexample: an entry whose expiry equals `now` is returned by
`getCached` even though `now < expiry` fails, so "present and `now < expiry`"
is not the exact hit condition. -/
theorem getCached_boundary_counterexample :
    (getCached 100 ([("k", ⟨(0:Int), 100⟩)] : Cache Int) "k").1 = some 0 ∧
    ¬ ((100:Int) < 100) := by
  refine ⟨by decide, by decide⟩

/-! ## Per-repository outcome tally (src/lib/github.ts lines 378-415)

The result-processing loop of `getGitHubStatistics`, as a fold over the list
of per-repository outcomes returned by the concurrency runner (one outcome
per scanned repository, in input order). -/

/-- The mutable accumulators of lines 380-385. -/
structure TallyAcc where
  locChanged : Int
  commitsCounted : Int
  reposMatched : Nat
  reposPending : Nat
  reposFailed : Nat
deriving Repr, DecidableEq

/-- `r.stats.find((x) => x.author?.login?.toLowerCase() === target)`
(line 406). -/
def findMe (target : String) (stats : List ContributorStat) :
    Option ContributorStat :=
  stats.find? (fun x => match x.author with
    | some login => toLowerStr login == target
    | none => false)

/-- One iteration of the tally loop (lines 394-415): `pending` and `failed`
increment their counters; an `ok` outcome either matches the target login
(incrementing `reposMatched`, adding `me.total ?? 0` commits and the weekly
`(w.a ?? 0) + (w.d ?? 0)` line changes) or contributes nothing. -/
def tallyStep (target : String) (acc : TallyAcc) (r : RepoOutcome) : TallyAcc :=
  match r with
  | RepoOutcome.pending => { acc with reposPending := acc.reposPending + 1 }
  | RepoOutcome.failed => { acc with reposFailed := acc.reposFailed + 1 }
  | RepoOutcome.ok stats =>
    match findMe target stats with
    | none => acc
    | some me =>
      { acc with
        reposMatched := acc.reposMatched + 1
        commitsCounted := acc.commitsCounted + me.total
        locChanged := acc.locChanged + (me.weeks.map (fun w => w.a + w.d)).sum }

/-- The tally loop over all outcomes, started from the zero accumulators. -/
def tallyResults (target : String) (results : List RepoOutcome) : TallyAcc :=
  results.foldl (tallyStep target) ⟨0, 0, 0, 0, 0⟩

/-- Classification: outcome `pending`. -/
def outcomePending : RepoOutcome → Bool
  | RepoOutcome.pending => true
  | _ => false

/-- Classification: outcome `failed`. -/
def outcomeFailed : RepoOutcome → Bool
  | RepoOutcome.failed => true
  | _ => false

/-- The matched contributor entry of an `ok` outcome, if any. -/
def matchedEntry (target : String) : RepoOutcome → Option ContributorStat
  | RepoOutcome.ok stats => findMe target stats
  | _ => none

/-- Classification: `ok` and the target login appears among contributors. -/
def outcomeMatched (target : String) (r : RepoOutcome) : Bool :=
  (matchedEntry target r).isSome

/-- Classification: `ok` but the target login is absent. -/
def outcomeOkUnmatched (target : String) (r : RepoOutcome) : Bool :=
  match r with
  | RepoOutcome.ok stats => (findMe target stats).isNone
  | _ => false

theorem tally_foldl (target : String) (results : List RepoOutcome) :
    ∀ acc : TallyAcc,
      List.foldl (tallyStep target) acc results =
        ⟨acc.locChanged + ((results.filterMap (matchedEntry target)).map
            (fun me => (me.weeks.map (fun w => w.a + w.d)).sum)).sum,
          acc.commitsCounted + ((results.filterMap (matchedEntry target)).map
            (fun me => me.total)).sum,
          acc.reposMatched + (results.filterMap (matchedEntry target)).length,
          acc.reposPending + results.countP outcomePending,
          acc.reposFailed + results.countP outcomeFailed⟩ := by
  induction results with
  | nil =>
    intro acc
    simp [TallyAcc.mk.injEq]
  | cons r rs ih =>
    intro acc
    rw [List.foldl_cons, ih (tallyStep target acc r)]
    cases r with
    | pending =>
      simp [tallyStep, matchedEntry, outcomePending, outcomeFailed,
        List.countP_cons, TallyAcc.mk.injEq]
      omega
    | failed =>
      simp [tallyStep, matchedEntry, outcomePending, outcomeFailed,
        List.countP_cons, TallyAcc.mk.injEq]
      omega
    | ok stats =>
      cases hf : findMe target stats with
      | none =>
        simp [tallyStep, matchedEntry, outcomePending, outcomeFailed,
          List.countP_cons, hf, TallyAcc.mk.injEq]
      | some me =>
        simp [tallyStep, matchedEntry, outcomePending, outcomeFailed,
          List.countP_cons, hf, TallyAcc.mk.injEq]
        omega

theorem length_filterMap_matched (target : String) (results : List RepoOutcome) :
    (results.filterMap (matchedEntry target)).length =
      results.countP (outcomeMatched target) := by
  induction results with
  | nil => rfl
  | cons r rs ih =>
    cases hf : matchedEntry target r with
    | none =>
      simp [List.filterMap_cons, List.countP_cons, hf, outcomeMatched, ih]
    | some me =>
      simp [List.filterMap_cons, List.countP_cons, hf, outcomeMatched, ih]

theorem countP_four_partition {α : Type} (p1 p2 p3 p4 : α → Bool) :
    ∀ l : List α,
      (∀ a ∈ l, (if p1 a then 1 else 0) + (if p2 a then 1 else 0) +
        (if p3 a then 1 else 0) + (if p4 a then (1:Nat) else 0) = 1) →
      l.countP p1 + l.countP p2 + l.countP p3 + l.countP p4 = l.length := by
  intro l
  induction l with
  | nil => intro _; rfl
  | cons a l ih =>
    intro h
    have ha := h a (List.mem_cons_self a l)
    have ih' := ih (fun b hb => h b (List.mem_cons_of_mem a hb))
    simp only [List.countP_cons, List.length_cons]
    cases hp1 : p1 a <;> cases hp2 : p2 a <;> cases hp3 : p3 a <;>
      cases hp4 : p4 a <;> simp [hp1, hp2, hp3, hp4] at ha ⊢ <;> omega

theorem outcome_exactly_one (target : String) (r : RepoOutcome) :
    (if outcomePending r then 1 else 0) + (if outcomeFailed r then 1 else 0) +
      (if outcomeMatched target r then 1 else 0) +
      (if outcomeOkUnmatched target r then (1:Nat) else 0) = 1 := by
  cases r with
  | pending => rfl
  | failed => rfl
  | ok stats =>
    cases hf : findMe target stats <;>
      simp [outcomePending, outcomeFailed, outcomeMatched, outcomeOkUnmatched,
        matchedEntry, hf]

/-- C2: in the tally over any list of per-repository outcomes, each scanned
repository falls in exactly one of the classes matched / pending / failed /
ok-but-unmatched, so the four counts sum to the number of scanned
repositories; and `locChanged` (resp. `commitsCounted`) is the sum of the
weekly `a + d` values (resp. of the `total` commit counts) taken solely over
the contributor entries matched in the `reposMatched` repositories. -/
theorem tally_consistency (target : String) (results : List RepoOutcome) :
    (∀ r ∈ results,
      (if outcomePending r then 1 else 0) + (if outcomeFailed r then 1 else 0) +
        (if outcomeMatched target r then 1 else 0) +
        (if outcomeOkUnmatched target r then (1:Nat) else 0) = 1) ∧
    (tallyResults target results).reposMatched +
        (tallyResults target results).reposPending +
        (tallyResults target results).reposFailed +
        results.countP (outcomeOkUnmatched target) = results.length ∧
    (tallyResults target results).locChanged =
      ((results.filterMap (matchedEntry target)).map
        (fun me => (me.weeks.map (fun w => w.a + w.d)).sum)).sum ∧
    (tallyResults target results).commitsCounted =
      ((results.filterMap (matchedEntry target)).map
        (fun me => me.total)).sum := by
  have hfold := tally_foldl target results ⟨0, 0, 0, 0, 0⟩
  refine ⟨fun r _ => outcome_exactly_one target r, ?_, ?_, ?_⟩
  · have hpart := countP_four_partition outcomePending outcomeFailed
      (outcomeMatched target) (outcomeOkUnmatched target) results
      (fun a ha => outcome_exactly_one target a)
    unfold tallyResults
    rw [hfold]
    simp only
    rw [length_filterMap_matched]
    omega
  · unfold tallyResults
    rw [hfold]
    simp
  · unfold tallyResults
    rw [hfold]
    simp

/-! ## `paginateRest` (src/lib/github.ts lines 91-119)

The upstream page sequence is an oracle `pages : Nat → Page T`: the i-th
fetch (following the chain of `rel="next"` URLs parsed from the `Link`
header by `parseLinkHeader`) returns `pages i`.  `ok` is `res.ok`, `body`
the parsed array, and `next` records whether the `Link` header carries a
`rel="next"` relation. -/

structure Page (T : Type) where
  ok : Bool
  body : List T
  next : Bool

/-- The `for (let i = 0; i < maxPages; i++)` loop of `paginateRest`
(lines 105-116), returning the accumulated bodies and the number of pages
fetched.  `i` is the index of the next page to fetch and `rem` the number of
loop iterations left. -/
def paginateGo {T : Type} (pages : Nat → Page T) : Nat → Nat → List T × Nat
  | _, 0 => ([], 0)
  | i, rem + 1 =>
    if ¬ (pages i).ok then ([], 1)
    else if ¬ (pages i).next then ((pages i).body, 1)
    else
      ((pages i).body ++ (paginateGo pages (i + 1) rem).1,
        (paginateGo pages (i + 1) rem).2 + 1)

/-- `paginateRest(firstPath, token, maxPages)` (lines 101-119). -/
def paginateRest {T : Type} (pages : Nat → Page T) (maxPages : Nat) :
    List T × Nat :=
  paginateGo pages 0 maxPages

theorem paginateGo_le {T : Type} (pages : Nat → Page T) :
    ∀ rem i, (paginateGo pages i rem).2 ≤ rem := by
  intro rem
  induction rem with
  | zero => intro i; simp [paginateGo]
  | succ rem ih =>
    intro i
    unfold paginateGo
    split
    · simp
    · split
      · simp
      · have := ih (i + 1)
        simp only
        omega

theorem flatten_range_map_succ {β : Type} (f : Nat → List β) (k : Nat) :
    ((List.range (k + 1)).map f).flatten =
      f 0 ++ ((List.range k).map (fun j => f (j + 1))).flatten := by
  rw [List.range_succ_eq_map, List.map_cons, List.flatten_cons, List.map_map]
  rfl

theorem paginateGo_stops {T : Type} (pages : Nat → Page T) :
    ∀ k i rem, k < rem →
      (∀ j, j < k → (pages (i + j)).ok ∧ (pages (i + j)).next) →
      (pages (i + k)).ok → ¬ (pages (i + k)).next →
      paginateGo pages i rem =
        (((List.range (k + 1)).map (fun j => (pages (i + j)).body)).flatten,
          k + 1) := by
  intro k
  induction k with
  | zero =>
    intro i rem hrem hpre hok hnext
    obtain ⟨rem', rfl⟩ : ∃ rem', rem = rem' + 1 := ⟨rem - 1, by omega⟩
    rw [Nat.add_zero] at hok hnext
    unfold paginateGo
    rw [if_neg (by simp [hok]), if_pos (by simp [hnext])]
    refine congrArg₂ _ ?_ rfl
    rw [List.range_succ, List.range_zero]
    simp
  | succ k ih =>
    intro i rem hrem hpre hok hnext
    obtain ⟨rem', rfl⟩ : ∃ rem', rem = rem' + 1 := ⟨rem - 1, by omega⟩
    have h0 := hpre 0 (by omega)
    rw [Nat.add_zero] at h0
    have ihh := ih (i + 1) rem' (by omega)
      (fun j hj => by
        have := hpre (j + 1) (by omega)
        rwa [show i + (j + 1) = i + 1 + j by omega] at this)
      (by rwa [show i + 1 + k = i + (k + 1) by omega])
      (by rwa [show i + 1 + k = i + (k + 1) by omega])
    unfold paginateGo
    rw [if_neg (by simp [h0.1]), if_neg (by simp [h0.2]), ihh]
    refine congrArg₂ _ ?_ rfl
    conv_rhs => rw [flatten_range_map_succ (fun j => (pages (i + j)).body) (k + 1)]
    refine congrArg₂ _ (by simp) (congrArg _ (List.map_congr_left ?_))
    intro j _
    simp [show i + (j + 1) = i + 1 + j from by omega]

theorem paginateGo_truncates {T : Type} (pages : Nat → Page T) :
    ∀ k i rem, k < rem →
      (∀ j, j < k → (pages (i + j)).ok ∧ (pages (i + j)).next) →
      ¬ (pages (i + k)).ok →
      paginateGo pages i rem =
        (((List.range k).map (fun j => (pages (i + j)).body)).flatten,
          k + 1) := by
  intro k
  induction k with
  | zero =>
    intro i rem hrem hpre hok
    obtain ⟨rem', rfl⟩ : ∃ rem', rem = rem' + 1 := ⟨rem - 1, by omega⟩
    rw [Nat.add_zero] at hok
    unfold paginateGo
    rw [if_pos (by simp [hok])]
    simp
  | succ k ih =>
    intro i rem hrem hpre hok
    obtain ⟨rem', rfl⟩ : ∃ rem', rem = rem' + 1 := ⟨rem - 1, by omega⟩
    have h0 := hpre 0 (by omega)
    rw [Nat.add_zero] at h0
    have ihh := ih (i + 1) rem' (by omega)
      (fun j hj => by
        have := hpre (j + 1) (by omega)
        rwa [show i + (j + 1) = i + 1 + j by omega] at this)
      (by rwa [show i + 1 + k = i + (k + 1) by omega])
    unfold paginateGo
    rw [if_neg (by simp [h0.1]), if_neg (by simp [h0.2]), ihh]
    refine congrArg₂ _ ?_ rfl
    conv_rhs => rw [flatten_range_map_succ (fun j => (pages (i + j)).body) k]
    refine congrArg₂ _ (by simp) (congrArg _ (List.map_congr_left ?_))
    intro j _
    simp [show i + (j + 1) = i + 1 + j from by omega]

/-- C7: `paginateRest` never fetches more than `maxPages` pages; when the
pages up to `k` are successful with a `rel="next"` link and page `k` is
successful without one, it fetches exactly `k + 1` pages (not `maxPages`)
and returns all bodies in order; when page `k` returns a non-success status
it stops early without retrying, truncating the result to the bodies of the
`k` pages already accumulated while still having issued `k + 1` fetches. -/
theorem paginateRest_termination {T : Type} (pages : Nat → Page T)
    (maxPages : Nat) :
    (paginateRest pages maxPages).2 ≤ maxPages ∧
    (∀ k, k < maxPages →
      (∀ j, j < k → (pages j).ok ∧ (pages j).next) →
      (pages k).ok → ¬ (pages k).next →
      paginateRest pages maxPages =
        (((List.range (k + 1)).map (fun j => (pages j).body)).flatten, k + 1)) ∧
    (∀ k, k < maxPages →
      (∀ j, j < k → (pages j).ok ∧ (pages j).next) →
      ¬ (pages k).ok →
      paginateRest pages maxPages =
        (((List.range k).map (fun j => (pages j).body)).flatten, k + 1)) := by
  refine ⟨paginateGo_le pages maxPages 0, ?_, ?_⟩
  · intro k hk hpre hok hnext
    have h := paginateGo_stops pages k 0 maxPages hk
      (fun j hj => by simpa using hpre j hj) (by simpa using hok)
      (by simpa using hnext)
    unfold paginateRest
    rw [h]
    simp
  · intro k hk hpre hok
    have h := paginateGo_truncates pages k 0 maxPages hk
      (fun j hj => by simpa using hpre j hj) (by simpa using hok)
    unfold paginateRest
    rw [h]
    simp

/-- Witness for C7: a two-page sequence whose second page has no `next`
link (fetches exactly 2 of up to 5 pages), and a sequence whose second page
fails (truncation to the first page's body, still 2 fetches). -/
theorem paginateRest_termination_witness :
    (paginateRest (fun j => Page.mk true [(j : Int)] (decide (j = 0))) 5).2 ≤ 5 ∧
    paginateRest (fun j => Page.mk true [(j : Int)] (decide (j = 0))) 5 =
      (((List.range 2).map
        (fun j => (Page.mk true [(j : Int)] (decide (j = 0))).body)).flatten, 2) ∧
    paginateRest (fun j => Page.mk (decide (j = 0)) [(j : Int)] true) 5 =
      (((List.range 1).map
        (fun j => (Page.mk (decide (j = 0)) [(j : Int)] true).body)).flatten, 2) :=
  ⟨(paginateRest_termination _ 5).1,
   (paginateRest_termination _ 5).2.1 1 (by decide) (by decide) (by decide)
     (by decide),
   (paginateRest_termination _ 5).2.2 1 (by decide) (by decide) (by decide)⟩

theorem getD_set_self {α : Type} (l : List α) (i : Nat) (v d : α)
    (h : i < l.length) : (l.set i v).getD i d = v := by
  rw [List.getD_eq_getElem?_getD, List.getElem?_set]
  simp [h]

theorem getD_set_ne {α : Type} (l : List α) (i j : Nat) (v d : α)
    (h : i ≠ j) : (l.set i v).getD j d = l.getD j d := by
  rw [List.getD_eq_getElem?_getD, List.getElem?_set, if_neg h,
    ← List.getD_eq_getElem?_getD]

theorem getD_replicate_default {α : Type} (n j : Nat) (d : α) :
    (List.replicate n d).getD j d = d := by
  rw [List.getD_eq_getElem?_getD, List.getElem?_replicate]
  split <;> rfl

/-! ## `mapWithConcurrency` (src/lib/github.ts lines 296-315)

The runner is modelled as a small-step transition system over cooperative
worker tasks.  Each worker loops: it atomically reads and increments the
shared cursor `idx` (no suspension point between the read and the write);
if the grabbed index is past the end it returns (becomes `done`), otherwise
it awaits `fn(items[cur])` (state `running cur`) and then writes the result
into slot `cur` of the pre-sized output array and loops (becomes `ready`
again).  The scheduler may interleave workers arbitrarily, so every claim
proved over all reachable terminal states holds regardless of completion
order.  `writes` counts the writes into each slot, to express that every
index is processed exactly once. -/

inductive WState where
  | ready
  | running (cur : Nat)
  | done
deriving Repr, DecidableEq

/-- The shared state of one `mapWithConcurrency` run: the cursor, the
multiset of worker states, the output array (`new Array(items.length)`,
unwritten slots `none`) and the per-slot write counters. -/
structure RunState (R : Type) where
  idx : Nat
  workers : Multiset WState
  results : List (Option R)
  writes : List Nat
deriving DecidableEq

/-- One cooperative step: `grab` (a ready worker takes the cursor value and
increments it, `h` being the `cur >= items.length` check failing), `retire`
(the check succeeds and the worker returns; the cursor was still
incremented by `idx++`), and `complete` (a running worker's
`fn(items[cur])` resolves and is written into slot `cur`). -/
inductive MwcStep {T R : Type} (items : List T) (f : T → R) :
    RunState R → RunState R → Prop
  | grab (idx : Nat) (rest : Multiset WState) (results : List (Option R))
      (writes : List Nat) (h : idx < items.length) :
      MwcStep items f ⟨idx, WState.ready ::ₘ rest, results, writes⟩
        ⟨idx + 1, WState.running idx ::ₘ rest, results, writes⟩
  | retire (idx : Nat) (rest : Multiset WState) (results : List (Option R))
      (writes : List Nat) (h : ¬ idx < items.length) :
      MwcStep items f ⟨idx, WState.ready ::ₘ rest, results, writes⟩
        ⟨idx + 1, WState.done ::ₘ rest, results, writes⟩
  | complete (idx cur : Nat) (rest : Multiset WState) (results : List (Option R))
      (writes : List Nat) :
      MwcStep items f ⟨idx, WState.running cur ::ₘ rest, results, writes⟩
        ⟨idx, WState.ready ::ₘ rest, results.set cur ((items.get? cur).map f),
          writes.set cur (writes.getD cur 0 + 1)⟩

/-- The initial state: `Array.from({length: Math.min(limit, items.length)})`
workers (a negative length yields zero workers), all `ready`, cursor 0,
output slots unwritten. -/
def initState {T : Type} (R : Type) (items : List T) (limit : Int) : RunState R :=
  ⟨0, Multiset.replicate (min limit (items.length : Int)).toNat WState.ready,
    List.replicate items.length none, List.replicate items.length 0⟩

/-- The run invariant: slots at or past the cursor are untouched and not
owned by any worker; slots below the cursor are owned by exactly one
running worker or written exactly once (with the worker's result for that
item); a `done` worker exists only once the cursor has passed the end. -/
def Inv {T R : Type} (items : List T) (f : T → R) (s : RunState R) : Prop :=
  s.results.length = items.length ∧
  s.writes.length = items.length ∧
  (∀ j, j < items.length →
    (s.idx ≤ j →
      s.workers.count (WState.running j) = 0 ∧
      s.writes.getD j 0 = 0 ∧ s.results.getD j none = none) ∧
    (j < s.idx →
      s.workers.count (WState.running j) + s.writes.getD j 0 = 1 ∧
      (s.writes.getD j 0 = 1 → s.results.getD j none = (items.get? j).map f) ∧
      (s.writes.getD j 0 = 0 → s.results.getD j none = none))) ∧
  (WState.done ∈ s.workers → items.length ≤ s.idx)

theorem inv_init {T R : Type} (items : List T) (f : T → R) (limit : Int) :
    Inv items f (initState R items limit) := by
  unfold Inv initState
  dsimp only
  refine ⟨by simp, by simp, ?_, ?_⟩
  · intro j hj
    refine ⟨fun _ => ⟨?_, ?_, ?_⟩, fun h => by omega⟩
    · rw [Multiset.count_replicate]
      simp
    · exact getD_replicate_default _ _ _
    · exact getD_replicate_default _ _ _
  · intro hmem
    have := Multiset.eq_of_mem_replicate hmem
    simp at this

theorem inv_step {T R : Type} (items : List T) (f : T → R)
    (s s' : RunState R) (hstep : MwcStep items f s s') (hinv : Inv items f s) :
    Inv items f s' := by
  unfold Inv at hinv ⊢
  obtain ⟨hrl, hwl, hj, hdone⟩ := hinv
  cases hstep with
  | grab idx rest results writes h =>
    dsimp only at hrl hwl hj hdone ⊢
    refine ⟨hrl, hwl, ?_, ?_⟩
    · intro j hjlen
      have hj' := hj j hjlen
      have hner : WState.running j ≠ WState.ready := fun hc => by cases hc
      constructor
      · intro hle
        have h1 := hj'.1 (by omega)
        rw [Multiset.count_cons_of_ne hner] at h1
        rw [Multiset.count_cons_of_ne
          (show WState.running j ≠ WState.running idx from
            fun hc => by cases hc; omega)]
        exact h1
      · intro hlt
        by_cases hji : j = idx
        · subst hji
          have h1 := hj'.1 le_rfl
          rw [Multiset.count_cons_of_ne hner] at h1
          rw [Multiset.count_cons_self]
          refine ⟨by omega, fun hw => by omega, fun _ => h1.2.2⟩
        · have h2 := hj'.2 (by omega)
          rw [Multiset.count_cons_of_ne hner] at h2
          rw [Multiset.count_cons_of_ne
            (show WState.running j ≠ WState.running idx from
              fun hc => by cases hc; exact hji rfl)]
          exact h2
    · intro hmem
      rcases Multiset.mem_cons.mp hmem with h1 | h1
      · cases h1
      · have := hdone (Multiset.mem_cons.mpr (Or.inr h1))
        omega
  | retire idx rest results writes h =>
    dsimp only at hrl hwl hj hdone ⊢
    refine ⟨hrl, hwl, ?_, fun _ => by omega⟩
    intro j hjlen
    have hj' := hj j hjlen
    have hner : WState.running j ≠ WState.ready := fun hc => by cases hc
    have hned : WState.running j ≠ WState.done := fun hc => by cases hc
    constructor
    · intro hle
      omega
    · intro _
      have h2 := hj'.2 (by omega)
      rw [Multiset.count_cons_of_ne hner] at h2
      rw [Multiset.count_cons_of_ne hned]
      exact h2
  | complete idx cur rest results writes =>
    dsimp only at hrl hwl hj hdone ⊢
    refine ⟨by simp [hrl], by simp [hwl], ?_, ?_⟩
    · intro j hjlen
      have hj' := hj j hjlen
      have hner : WState.running j ≠ WState.ready := fun hc => by cases hc
      by_cases hji : j = cur
      · subst hji
        constructor
        · intro hle
          have h1 := hj'.1 hle
          rw [Multiset.count_cons_self] at h1
          omega
        · intro hlt
          have h2 := hj'.2 hlt
          rw [Multiset.count_cons_self] at h2
          rw [Multiset.count_cons_of_ne hner,
            getD_set_self writes j _ 0 (by omega),
            getD_set_self results j _ none (by omega)]
          exact ⟨by omega, fun _ => rfl, fun hc => by omega⟩
      · have hnc : WState.running j ≠ WState.running cur :=
          fun hc => by cases hc; exact hji rfl
        have hcj : cur ≠ j := fun hc => hji hc.symm
        constructor
        · intro hle
          have h1 := hj'.1 hle
          rw [Multiset.count_cons_of_ne hnc] at h1
          rw [Multiset.count_cons_of_ne hner,
            getD_set_ne writes cur j _ 0 hcj,
            getD_set_ne results cur j _ none hcj]
          exact h1
        · intro hlt
          have h2 := hj'.2 hlt
          rw [Multiset.count_cons_of_ne hnc] at h2
          rw [Multiset.count_cons_of_ne hner,
            getD_set_ne writes cur j _ 0 hcj,
            getD_set_ne results cur j _ none hcj]
          exact h2
    · intro hmem
      rcases Multiset.mem_cons.mp hmem with h1 | h1
      · cases h1
      · exact hdone (Multiset.mem_cons.mpr (Or.inr h1))

theorem inv_reachable {T R : Type} (items : List T) (f : T → R)
    (init s : RunState R)
    (hr : Relation.ReflTransGen (MwcStep items f) init s)
    (hinit : Inv items f init) : Inv items f s := by
  induction hr with
  | refl => exact hinit
  | tail hab hbc ih => exact inv_step items f _ _ hbc ih

theorem card_step {T R : Type} (items : List T) (f : T → R)
    (s s' : RunState R) (hstep : MwcStep items f s s') :
    s'.workers.card = s.workers.card := by
  cases hstep <;> simp

theorem card_reachable {T R : Type} (items : List T) (f : T → R)
    (init s : RunState R)
    (hr : Relation.ReflTransGen (MwcStep items f) init s) :
    s.workers.card = init.workers.card := by
  induction hr with
  | refl => rfl
  | tail hab hbc ih => rw [card_step items f _ _ hbc, ih]

theorem mwc_terminal {T R : Type} (items : List T) (f : T → R) (limit : Int)
    (hlim : 1 ≤ limit) (s : RunState R)
    (hr : Relation.ReflTransGen (MwcStep items f) (initState R items limit) s)
    (hterm : ∀ w ∈ s.workers, w = WState.done) :
    s.results = items.map (fun it => some (f it)) ∧
    (∀ j, j < items.length → s.writes.getD j 0 = 1) := by
  obtain ⟨hrl, hwl, hj, hdone⟩ :=
    inv_reachable items f _ s hr (inv_init items f limit)
  by_cases hn : items.length = 0
  · have hres0 : s.results = [] := List.eq_nil_of_length_eq_zero (by omega)
    rw [hres0, List.eq_nil_of_length_eq_zero hn]
    exact ⟨rfl, fun j hjl => by simp at hjl⟩
  · have hcard : s.workers.card = (min limit (items.length : Int)).toNat := by
      rw [card_reachable items f _ s hr]
      unfold initState
      simp
    have hpos : 0 < s.workers.card := by
      rw [hcard]
      omega
    obtain ⟨w, hw⟩ := Multiset.card_pos_iff_exists_mem.mp hpos
    have hwdone := hterm w hw
    subst hwdone
    have hidx : items.length ≤ s.idx := hdone hw
    have hwrites : ∀ j, j < items.length → s.writes.getD j 0 = 1 := by
      intro j hjl
      have h2 := (hj j hjl).2 (by omega)
      have hcnt : s.workers.count (WState.running j) = 0 := by
        rw [Multiset.count_eq_zero]
        intro hmem
        exact absurd (hterm _ hmem) (fun hc => by cases hc)
      omega
    refine ⟨?_, hwrites⟩
    apply List.ext_getElem?
    intro j
    by_cases hjl : j < items.length
    · have h2 := (hj j hjl).2 (by omega)
      have hres := h2.2.1 (hwrites j hjl)
      have hjr : j < s.results.length := by omega
      rw [List.getElem?_eq_getElem hjr]
      rw [List.getElem?_eq_getElem (by simpa using hjl :
        j < (items.map (fun it => some (f it))).length)]
      rw [List.getD_eq_getElem?_getD, List.getElem?_eq_getElem hjr] at hres
      simp only [Option.getD_some] at hres
      rw [List.getElem_map]
      rw [hres]
      rw [List.get?_eq_getElem?, List.getElem?_eq_getElem hjl]
      rfl
    · rw [List.getElem?_eq_none (by omega : s.results.length ≤ j),
        List.getElem?_eq_none (by simpa using (by omega : items.length ≤ j) :
          (items.map (fun it => some (f it))).length ≤ j)]

/-- C6: with `limit ≥ 1`, `mapWithConcurrency` starts
`min(limit, items.length)` workers, and in every reachable state in which
all workers have returned (the state `Promise.all` resolves in) the output
sequence has the input's length and holds at index `i` exactly the worker
result `f items[i]`, each slot written exactly once - regardless of the
interleaving, hence of the order in which individual results complete. -/
theorem mapWithConcurrency_ordered {T R : Type} (items : List T) (f : T → R)
    (limit : Int) (hlim : 1 ≤ limit) (s : RunState R)
    (hr : Relation.ReflTransGen (MwcStep items f) (initState R items limit) s)
    (hterm : ∀ w ∈ s.workers, w = WState.done) :
    (initState R items limit).workers.card = min limit.toNat items.length ∧
    s.results.length = items.length ∧
    s.results = items.map (fun it => some (f it)) ∧
    (∀ j, j < items.length → s.writes.getD j 0 = 1) := by
  have ht := mwc_terminal items f limit hlim s hr hterm
  refine ⟨?_, ?_, ht.1, ht.2⟩
  · unfold initState
    dsimp only
    rw [Multiset.card_replicate]
    omega
  · rw [ht.1]
    simp

theorem step_workers_ne_zero {T R : Type} (items : List T) (f : T → R)
    (s s' : RunState R) (hstep : MwcStep items f s s') : s.workers ≠ 0 := by
  cases hstep <;> exact Multiset.cons_ne_zero

/-- The effective concurrency of `getGitHubStatistics` (line 351):
`Math.max(options?.concurrency ?? 8, 4)`. -/
def concurrencyOf (copt : Option Int) : Int := max (copt.getD 8) 4

/-- C10: with `limit ≤ 0` the runner starts zero workers
(`Array.from({length: min(limit, n)})` of a non-positive length is empty),
so the initial state is already terminal and every reachable state still
has every output slot unwritten and zero writes; the hazard is unreachable
from `getGitHubStatistics`, whose effective concurrency
`Math.max(options?.concurrency ?? 8, 4)` is at least 4, giving at least one
worker whenever there are items to scan. -/
theorem mapWithConcurrency_zero_limit {T R : Type} (items : List T) (f : T → R)
    (limit : Int) (hlim : limit ≤ 0) :
    (initState R items limit).workers = 0 ∧
    (∀ s, Relation.ReflTransGen (MwcStep items f) (initState R items limit) s →
      s.results = List.replicate items.length none ∧
      ∀ j, s.writes.getD j 0 = 0) ∧
    (∀ copt : Option Int, 4 ≤ concurrencyOf copt) ∧
    (∀ (copt : Option Int) (n : Nat), 1 ≤ n →
      1 ≤ min (concurrencyOf copt) (n : Int)) := by
  have hw0 : (initState R items limit).workers = 0 := by
    unfold initState
    dsimp only
    rw [show (min limit (items.length : Int)).toNat = 0 from by omega]
    rfl
  refine ⟨hw0, ?_, ?_, ?_⟩
  · intro s hr
    rcases Relation.ReflTransGen.cases_head hr with rfl | ⟨b, hstep, _⟩
    · exact ⟨rfl, fun j => getD_replicate_default _ _ _⟩
    · exact absurd hw0 (step_workers_ne_zero items f _ b hstep)
  · intro copt
    exact le_max_right _ _
  · intro copt n hn
    have h4 := le_max_right (copt.getD 8) 4
    exact le_min (by unfold concurrencyOf; omega) (by omega)

/-- Witness for C6: items `[5]`, doubling worker, one explicit interleaving
reaching the all-done state. -/
theorem mapWithConcurrency_ordered_witness :
    (1 : Int) ≤ 1 ∧
    (initState Int [(5 : Int)] 1).workers.card = min (1 : Int).toNat [(5 : Int)].length ∧
    ([some 10] : List (Option Int)).length = [(5 : Int)].length ∧
    ([some 10] : List (Option Int)) = [(5 : Int)].map (fun it => some (it * 2)) ∧
    (∀ j, j < [(5 : Int)].length → ([1] : List Nat).getD j 0 = 1) :=
  ⟨le_refl 1,
    mapWithConcurrency_ordered [(5 : Int)] (fun it => it * 2) 1 (le_refl 1)
      ⟨2, WState.done ::ₘ 0, [some 10], [1]⟩
      (Relation.ReflTransGen.head
        (MwcStep.grab 0 0 [none] [0] (by decide))
        (Relation.ReflTransGen.head
          (MwcStep.complete 1 0 0 [none] [0])
          (Relation.ReflTransGen.head
            (MwcStep.retire 1 0 [some 10] [1] (by decide))
            Relation.ReflTransGen.refl)))
      (by decide)⟩

/-- Witness for C10 at `limit = 0` with one item. -/
theorem mapWithConcurrency_zero_limit_witness :
    (0 : Int) ≤ 0 ∧
    (initState Int [(5 : Int)] 0).workers = 0 ∧
    (initState Int [(5 : Int)] 0).results = List.replicate 1 none ∧
    (∀ copt : Option Int, 4 ≤ concurrencyOf copt) :=
  ⟨le_refl 0,
    (mapWithConcurrency_zero_limit [(5 : Int)] (fun it => it * 2) 0 (le_refl 0)).1,
    ((mapWithConcurrency_zero_limit [(5 : Int)] (fun it => it * 2) 0
        (le_refl 0)).2.1 _ Relation.ReflTransGen.refl).1,
    (mapWithConcurrency_zero_limit [(5 : Int)] (fun it => it * 2) 0
        (le_refl 0)).2.2.1⟩


/-! ## `getGitHubStatistics` (src/lib/github.ts lines 337-440)

The composite aggregation, with every upstream interaction recorded in a
call trace.  The three fetches of the `Promise.all` (line 366) and the
per-repository scans are composed in program order: the cooperative
interleaving only permutes independent calls and cache writes, and the
ordering guarantees of the runner are proven separately on `MwcStep`. -/

/-- The upstream calls the aggregation can make. -/
inductive UpstreamCall where
  | viewer
  | ownedPage (i : Nat)
  | allTimeCreatedAt
  | allTimeWindow (w : Int × Int)
  | scanPage (i : Nat)
  | prewarm (fullName : String)
  | contribStats (fullName : String) (attempt : Nat)
deriving Repr, DecidableEq

/-- The environment of one aggregation run: the token's presence, the
`/user` response, the two repository listings (page oracles), the two
GraphQL oracles of `getAllTimeContributions`, and the per-repository
contributor-statistics responses (per repository and attempt). -/
structure StatsEnv where
  tokenPresent : Bool
  viewerResp : Option String
  ownedPages : Nat → Page RepoRest
  scanPages : Nat → Page RepoRest
  createdAt : Option Int
  windowTotal : Int × Int → Option Int
  contribResp : String → Nat → RestResp

/-- The `options` parameter (lines 339-343). -/
structure StatsOptions where
  reposLimit : Option Int
  includeForks : Option Bool
  concurrency : Option Int

/-- The `stats:<login>:<reposLimit>:<includeForks>` cache key (line 354). -/
def statsKey (username : String) (opts : StatsOptions) : String :=
  "stats:" ++ toLowerStr username ++ ":" ++ toString (opts.reposLimit.getD 50)
    ++ ":" ++ (if opts.includeForks.getD false then "true" else "false")

/-- The calls made by `getAllTimeContributions` (mirrors its control flow:
nothing on a cache hit; the creation-timestamp query, then one
contribution-calendar query per window). -/
def allTimeCalls (now : Int) (cache : Cache CVal) (login : String)
    (createdAt : Option Int) : List UpstreamCall :=
  match getCachedNum now cache ("contrib-all:" ++ toLowerStr login) with
  | (some _, _) => []
  | (none, _) =>
    match createdAt with
    | none => [UpstreamCall.allTimeCreatedAt]
    | some created =>
      UpstreamCall.allTimeCreatedAt ::
        (yearWindows created now).map (fun w => UpstreamCall.allTimeWindow w)

/-- `prewarmContributorStats` (lines 141-155): fire-and-forget fetches for
the first `Math.min(repos.length, 20)` repositories; errors are discarded
and nothing is awaited, so only the calls are recorded. -/
def prewarmCalls (repos : List String) : List UpstreamCall :=
  (repos.take (min repos.length 20)).map UpstreamCall.prewarm

/-- The happy path after the identity check (lines 366-439): owned-repo
totals (`getOwnedRepoTotals`, lines 163-180, skipping forks), the all-time
figure, the scan listing (`listAccessibleReposForScan`, lines 182-192),
the `reposLimit` slice (line 373, `slice(0, Math.max(0, reposLimit))`),
the pre-warm, the per-repository fetches, the tally and the conditional
caching of the aggregate record. -/
def aggregateScan (env : StatsEnv) (now : Int) (cache1 : Cache CVal)
    (username : String) (opts : StatsOptions) :
    GitHubStatistics × Cache CVal × List UpstreamCall :=
  let ownedOut := paginateRest env.ownedPages 50
  let totals := ownedOut.1.foldl
    (fun (acc : Int × Int) r =>
      if r.fork then acc
      else (acc.1 + r.stargazers_count, acc.2 + r.forks_count)) (0, 0)
  let allTimeRes := getAllTimeContributions now cache1 username env.createdAt
    env.windowTotal
  let scanOut := paginateRest env.scanPages 50
  let allRepos := (scanOut.1.filter
    (fun r => opts.includeForks.getD false || ¬ r.fork)).map
      (fun r => r.full_name)
  let reposToScan := allRepos.take (max 0 (opts.reposLimit.getD 50)).toNat
  let scan := reposToScan.foldl
    (fun (acc : Cache CVal × List RepoOutcome × List UpstreamCall) name =>
      ((getContributorStatsForRepo now acc.1 name (env.contribResp name)).2.1,
        acc.2.1 ++ [(getContributorStatsForRepo now acc.1 name
          (env.contribResp name)).1],
        acc.2.2 ++ (List.range (getContributorStatsForRepo now acc.1 name
          (env.contribResp name)).2.2.1).map
            (fun a => UpstreamCall.contribStats name a)))
    (allTimeRes.2, [], [])
  let tally := tallyResults (toLowerStr username) scan.2.1
  let finalStats : GitHubStatistics :=
    { login := username
      stars := totals.1
      forks := totals.2
      contributionsAllTime := allTimeRes.1
      locChanged := tally.locChanged
      commitsCounted := tally.commitsCounted
      reposScanned := reposToScan.length
      reposMatched := tally.reposMatched
      reposPending := tally.reposPending
      reposFailed := tally.reposFailed
      reposWithContributions := tally.reposMatched }
  (finalStats, cacheFinalStats now scan.1 (statsKey username opts) finalStats,
    (List.range ownedOut.2).map UpstreamCall.ownedPage
      ++ allTimeCalls now cache1 username env.createdAt
      ++ (List.range scanOut.2).map UpstreamCall.scanPage
      ++ prewarmCalls reposToScan
      ++ scan.2.2)

/-- `getGitHubStatistics(username, options)` (lines 337-440): the missing
token check, the aggregate-cache check, the `/user` identity fetch, the
case-insensitive owner check (throwing on mismatch), then the scan. -/
def getGitHubStatistics (env : StatsEnv) (now : Int) (cache : Cache CVal)
    (username : String) (opts : StatsOptions) :
    Except String GitHubStatistics × Cache CVal × List UpstreamCall :=
  if env.tokenPresent = false then
    (Except.error "Missing GITHUB_TOKEN env var", cache, [])
  else
    match getCachedStats now cache (statsKey username opts) with
    | (some cachedStats, cache1) => (Except.ok cachedStats, cache1, [])
    | (none, cache1) =>
      match env.viewerResp with
      | none =>
        (Except.error "Failed to read /user from GitHub. Check token permissions.",
          cache1, [UpstreamCall.viewer])
      | some viewer =>
        if toLowerStr viewer ≠ toLowerStr username then
          (Except.error ("Token owner (" ++ viewer ++ ") does not match username ("
              ++ username ++ "). Use a token from the same account."),
            cache1, [UpstreamCall.viewer])
        else
          (Except.ok (aggregateScan env now cache1 username opts).1,
            (aggregateScan env now cache1 username opts).2.1,
            UpstreamCall.viewer :: (aggregateScan env now cache1 username opts).2.2)

/-- C8: with a token present and no cached aggregate record for the
username, a username whose lowercase form differs from the credential
owner's lowercase login makes `getGitHubStatistics` fail immediately with
the identity-mismatch error, the only upstream call being the single
identity check, and no statistics record is produced. -/
theorem identity_mismatch_fails_fast (env : StatsEnv) (now : Int)
    (cache : Cache CVal) (username : String) (opts : StatsOptions)
    (viewer : String) (htok : env.tokenPresent = true)
    (hmiss : (getCachedStats now cache (statsKey username opts)).1 = none)
    (hv : env.viewerResp = some viewer)
    (hne : toLowerStr viewer ≠ toLowerStr username) :
    (getGitHubStatistics env now cache username opts).1 =
      Except.error ("Token owner (" ++ viewer ++ ") does not match username ("
        ++ username ++ "). Use a token from the same account.") ∧
    (getGitHubStatistics env now cache username opts).2.2 =
      [UpstreamCall.viewer] := by
  rcases hE : getCachedStats now cache (statsKey username opts) with ⟨v, c1⟩
  rw [hE] at hmiss
  simp only at hmiss
  subst hmiss
  unfold getGitHubStatistics
  rw [if_neg (by simp [htok]), hE]
  simp only [hv, ne_eq, hne, not_false_eq_true, if_true]
  exact ⟨trivial, trivial⟩

/-- Witness for C8: credential owner `Alice`, requested account `bob`. -/
theorem identity_mismatch_fails_fast_witness :
    (StatsEnv.mk true (some "Alice") (fun _ => ⟨false, [], false⟩)
        (fun _ => ⟨false, [], false⟩) none (fun _ => none)
        (fun _ _ => ⟨500, none⟩)).tokenPresent = true ∧
    toLowerStr "Alice" ≠ toLowerStr "bob" ∧
    (getGitHubStatistics
        (StatsEnv.mk true (some "Alice") (fun _ => ⟨false, [], false⟩)
          (fun _ => ⟨false, [], false⟩) none (fun _ => none)
          (fun _ _ => ⟨500, none⟩))
        0 [] "bob" (StatsOptions.mk none none none)).1 =
      Except.error ("Token owner (" ++ "Alice" ++ ") does not match username ("
        ++ "bob" ++ "). Use a token from the same account.") ∧
    (getGitHubStatistics
        (StatsEnv.mk true (some "Alice") (fun _ => ⟨false, [], false⟩)
          (fun _ => ⟨false, [], false⟩) none (fun _ => none)
          (fun _ _ => ⟨500, none⟩))
        0 [] "bob" (StatsOptions.mk none none none)).2.2 =
      [UpstreamCall.viewer] := by
  refine ⟨rfl, by decide, ?_⟩
  exact identity_mismatch_fails_fast _ 0 [] "bob" (StatsOptions.mk none none none)
    "Alice" rfl (by decide) rfl (by decide)
